/-
Verification of the item/record-management layer of memcachedb (src/item.c):
the buffer-pool freelist, the record codec, the item allocator, and the
store-access layer (get / put / delete / exists) with its size-renegotiation
retry loop.  Pure functions of item.c are embedded as Lean functions; the
global freelist state is passed explicitly; calls into the Berkeley DB store
and into malloc/realloc are modelled by explicit oracles (result lists and
success flags).  Machine integers are modelled as Nat/Int with explicit
`% 256` where the C code truncates to uint8_t.
-/
import Mathlib

namespace Memcachedb

/-! ## Buffer pool (freelist)

The C freelist is `item **freeitem` with counters `freeitemcurr` (occupancy)
and `freeitemtotal` (capacity).  We model the occupied prefix of the array as
a list whose head is the top of the stack (index `freeitemcurr - 1`), plus
the capacity.  The element type is a parameter: the C array stores `item *`
pointers to raw buffers. -/

def MAX_ITEM_FREELIST_LENGTH : Nat := 4000

def INIT_ITEM_FREELIST_LENGTH : Nat := 500

structure Pool (α : Type) where
  stack : List α
  total : Nat
deriving DecidableEq, Repr

/-- Embeds `item_init`: an empty freelist with the initial capacity.
The C array allocation itself carries no pool content. -/
def item_init (α : Type) : Pool α :=
  ⟨[], INIT_ITEM_FREELIST_LENGTH⟩

/-- Embeds `do_item_from_freelist`: pop the top entry if `freeitemcurr > 0`,
otherwise `malloc` a fresh buffer (`mallocOk` is the malloc oracle,
`freshBuf` the value a successful zero-initializing malloc produces). -/
def do_item_from_freelist {α : Type} (p : Pool α) (mallocOk : Bool) (freshBuf : α) :
    Option α × Pool α :=
  match p.stack with
  | s :: rest => (some s, ⟨rest, p.total⟩)
  | [] => if mallocOk then (some freshBuf, p) else (none, p)

/-- Embeds `do_item_add_to_freelist`: push when there is room; at capacity,
fail if the hard maximum is reached, otherwise try to `realloc` to double
capacity (`reallocOk` is the realloc oracle) and push on success.
Returns the new pool and the C return code (0 success, 1 failure). -/
def do_item_add_to_freelist {α : Type} (p : Pool α) (reallocOk : Bool) (it : α) :
    Pool α × Nat :=
  if p.stack.length < p.total then
    (⟨it :: p.stack, p.total⟩, 0)
  else if MAX_ITEM_FREELIST_LENGTH ≤ p.total then
    (p, 1)
  else if reallocOk then
    (⟨it :: p.stack, p.total * 2⟩, 0)
  else
    (p, 1)

/-- Raw item buffers as byte lists (contents only matter for zero-initialization). -/
abbrev Buf := List Nat

/-- A zero-initialized buffer of the given size, as produced by
`malloc(settings.item_buf_size)` followed by `memset(s, 0, ...)`. -/
def zeroBuf (size : Nat) : Buf :=
  List.replicate size 0

/-- The `do_item_from_freelist` call at the `Buf` level: a fresh buffer is
zero-initialized and of standard size `item_buf_size`. -/
def do_item_from_freelist_buf (p : Pool Buf) (mallocOk : Bool) (item_buf_size : Nat) :
    Option Buf × Pool Buf :=
  do_item_from_freelist p mallocOk (zeroBuf item_buf_size)

/-- Capacities reachable from `item_init`: the initial capacity doubled at
most three times (500, 1000, 2000, 4000). -/
def PoolCapInv {α : Type} (p : Pool α) : Prop :=
  ∃ k, k ≤ 3 ∧ p.total = INIT_ITEM_FREELIST_LENGTH * 2 ^ k

/-! ## Record codec

`item_make_header` formats the suffix with
`snprintf(suffix, 40, " %d %d\r\n", flags, nbytes - 2)` and returns
`sizeof(item) + nkey + *nsuffix + nbytes`.  `sizeof(item)` (the fixed header
size, declared in memcachedb.h which only announces the struct) is the
parameter `hdrSize`.  C `int` values are modelled as `Int`, sizes as `Int`
(they are nonnegative throughout the valid input ranges). -/

/-- Little-endian base-10 digits with an explicit fuel argument (structural
recursion, so concrete inputs evaluate by reduction). -/
def digitsAuxR : Nat → Nat → List Nat
  | _, 0 => []
  | 0, _ + 1 => []
  | fuel + 1, n + 1 => ((n + 1) % 10) :: digitsAuxR fuel ((n + 1) / 10)

/-- Little-endian base-10 digits of a natural number (`n` itself is always
enough fuel). -/
def digits10 (n : Nat) : List Nat :=
  digitsAuxR n n

/-- Decimal digits of a natural number, most significant first, as characters
(the digit string `%d` produces for a positive value). -/
def digitChars (n : Nat) : List Char :=
  ((digits10 n).reverse).map Nat.digitChar

/-- The character sequence `%d` produces for an `int` value. -/
def decChars (i : Int) : List Char :=
  if i < 0 then '-' :: digitChars i.natAbs
  else if i = 0 then ['0']
  else digitChars i.toNat

/-- The full (untruncated) formatted string `" %d %d\r\n"` with arguments
`flags` and `nbytes - 2`. -/
def fmtSuffix (flags nbytes : Int) : List Char :=
  ' ' :: decChars flags ++ ' ' :: decChars (nbytes - 2) ++ ['\r', '\n']

/-- C `snprintf` truncation semantics for a buffer of `cap` bytes: the stored
string keeps at most `cap - 1` characters (one byte is the terminator);
the return value of `snprintf` is the untruncated length. -/
def snprintf_trunc (cap : Nat) (s : List Char) : List Char :=
  if s.length < cap then s else s.take (cap - 1)

/-- Embeds `item_make_header`: returns the stored suffix characters, the
`*nsuffix` out-parameter (the `uint8_t` cast of the `snprintf` return
value), and the total size `sizeof(item) + nkey + *nsuffix + nbytes`. -/
def item_make_header (hdrSize : Nat) (nkey : Nat) (flags nbytes : Int) :
    List Char × Nat × Int :=
  let full := fmtSuffix flags nbytes
  let stored := snprintf_trunc 40 full
  let nsuffix := full.length % 256
  (stored, nsuffix, (hdrSize : Int) + nkey + nsuffix + nbytes)

/-! ## Items and the allocator -/

/-- The logical content of a filled item buffer: the header fields written by
`item_alloc1` (`nkey` and `nsuffix` are `uint8_t` fields, `nbytes` is `int`)
together with the key and suffix bytes copied behind the header. -/
structure Item where
  nkey : Nat
  nbytes : Int
  nsuffix : Nat
  key : List Char
  suffix : List Char
deriving DecidableEq, Repr

/-- Modelled from the spec: the `ITEM_ntotal` macro lives in memcachedb.h,
which is not part of this source tree.  Per the spec's data-model invariant,
a record's total size recomputed from its own header fields is
`header_size + key_length + suffix_length + payload_length`, where the key
region holds the key bytes plus the 1-byte terminator that `item_alloc1`
writes via `strcpy` (it passes `nkey + 1` as the codec's key length). -/
def ITEM_ntotal (hdrSize : Nat) (it : Item) : Int :=
  (hdrSize : Int) + it.nkey + 1 + it.nsuffix + it.nbytes

/-- Where the allocator's buffer came from: `direct size` is
`malloc(ntotal)` with the requested size recorded; `freelist` is a pool
acquisition of a standard-size buffer. -/
inductive AllocSource where
  | direct (size : Int)
  | freelist
deriving DecidableEq, Repr

/-- Embeds `item_alloc1`: compute `ntotal` via `item_make_header` with key
length `nkey + 1` (cast to `uint8_t`); route to `malloc` when
`ntotal > settings.item_buf_size`, otherwise to the freelist; on success fill
the header fields (`it->nkey` is a `uint8_t` assignment), copy the key and
the first `nsuffix` stored suffix bytes.  Returns the filled item and the
allocation source, plus the pool after any freelist traffic. -/
def item_alloc1 (hdrSize item_buf_size : Nat) (key : List Char) (nkey : Nat)
    (flags nbytes : Int) (p : Pool Buf) (mallocOk : Bool) :
    Option (Item × AllocSource) × Pool Buf :=
  let h := item_make_header hdrSize ((nkey + 1) % 256) flags nbytes
  let filled : Item := ⟨nkey % 256, nbytes, h.2.1, key, h.1.take h.2.1⟩
  if (item_buf_size : Int) < h.2.2 then
    if mallocOk then (some (filled, AllocSource.direct h.2.2), p) else (none, p)
  else
    match do_item_from_freelist_buf p mallocOk item_buf_size with
    | (some _, p') => (some (filled, AllocSource.freelist), p')
    | (none, p') => (none, p')

/-- Embeds `item_alloc2`: the same size-based routing as `item_alloc1` but
with a caller-supplied total size and no filling. -/
def item_alloc2 (item_buf_size : Nat) (ntotal : Nat) (p : Pool Buf) (mallocOk : Bool) :
    Option Buf × Pool Buf :=
  if item_buf_size < ntotal then
    (if mallocOk then some (zeroBuf ntotal) else none, p)
  else
    do_item_from_freelist_buf p mallocOk item_buf_size

/-! ## item_free -/

/-- What became of the buffer a call to `item_free` was given. -/
inductive FreeOutcome where
  | noop
  | pooled
  | freedDirect
deriving DecidableEq, Repr

/-- Embeds `item_free`: a NULL item is a no-op; otherwise recompute the total
size from the item's header fields; oversized buffers are freed directly,
poolable ones are offered to the freelist and freed directly only if the
freelist refuses.  Returns the new pool, the C return value (always 0), and
what happened to the buffer. -/
def item_free (hdrSize item_buf_size : Nat) (p : Pool Item) (reallocOk : Bool)
    (it : Option Item) : Pool Item × Nat × FreeOutcome :=
  match it with
  | none => (p, 0, FreeOutcome.noop)
  | some i =>
    if (item_buf_size : Int) < ITEM_ntotal hdrSize i then
      (p, 0, FreeOutcome.freedDirect)
    else
      let r := do_item_add_to_freelist p reallocOk i
      if r.2 = 0 then (r.1, 0, FreeOutcome.pooled)
      else (r.1, 0, FreeOutcome.freedDirect)

/-! ## Store access layer

Store calls are modelled by oracles: `item_get` consumes a list of
`dbp->get` results (one per loop iteration), `item_put` / `item_delete` /
`item_exists` take the single result of their store call.  Buffer traffic of
`item_get` is recorded as an event trace: each successful allocation gets a
fresh id, in order. -/

/-- Result of one `dbp->get` call: `success` (0), `bufferSmall size`
(DB_BUFFER_SMALL, with `dbdata.size` set to the exact record size),
`notFound` (DB_NOTFOUND) or any other error code. -/
inductive DbGetResult where
  | success
  | bufferSmall (size : Nat)
  | notFound
  | dbError (code : Int)
deriving DecidableEq, Repr

/-- One observable buffer / store event of an `item_get` execution. -/
inductive GetEvent where
  | alloc (id size : Nat)
  | free (id : Nat)
  | storeGet (r : DbGetResult)
deriving DecidableEq, Repr

/-- The allocation events of a trace, as (buffer id, requested size) pairs. -/
def allocsOf (evs : List GetEvent) : List (Nat × Nat) :=
  evs.filterMap fun e =>
    match e with
    | GetEvent.alloc id size => some (id, size)
    | _ => none

/-- The ids passed to `item_free` along a trace, in order. -/
def freesOf (evs : List GetEvent) : List Nat :=
  evs.filterMap fun e =>
    match e with
    | GetEvent.free id => some id
    | _ => none

/-- Checks, along a trace starting with `live` owned buffers, that every
store read is issued while exactly one buffer is owned. -/
def liveOkFrom (live : Nat) : List GetEvent → Bool
  | [] => true
  | GetEvent.alloc _ _ :: evs => liveOkFrom (live + 1) evs
  | GetEvent.free _ :: evs => liveOkFrom (live - 1) evs
  | GetEvent.storeGet _ :: evs => live == 1 && liveOkFrom live evs

/-- Embeds the `while (!stop)` loop of `item_get`.  `held` is the id of the
buffer currently owned, `nextId` the id a further successful allocation would
get (`nextId = held + 1` throughout), `attempt` indexes the `allocOk`
allocation oracle.  Each loop iteration consumes one store result; `none`
means the result list ran out before the loop stopped (no such execution of
the C code is being modelled).  Returns the events of the loop and the id of
the returned buffer (`none` models returning NULL). -/
def item_get_loop (allocOk : Nat → Bool) (held nextId attempt : Nat) :
    List DbGetResult → Option (List GetEvent × Option Nat)
  | [] => none
  | DbGetResult.success :: _ =>
      some ([GetEvent.storeGet DbGetResult.success], some held)
  | DbGetResult.notFound :: _ =>
      some ([GetEvent.storeGet DbGetResult.notFound, GetEvent.free held], none)
  | DbGetResult.dbError c :: _ =>
      some ([GetEvent.storeGet (DbGetResult.dbError c), GetEvent.free held], none)
  | DbGetResult.bufferSmall sz :: rest =>
      if allocOk attempt then
        match item_get_loop allocOk nextId (nextId + 1) (attempt + 1) rest with
        | none => none
        | some (evs, res) =>
            some (GetEvent.storeGet (DbGetResult.bufferSmall sz) :: GetEvent.free held ::
                  GetEvent.alloc nextId sz :: evs, res)
      else
        some ([GetEvent.storeGet (DbGetResult.bufferSmall sz), GetEvent.free held], none)

/-- Embeds `item_get`: allocate an initial buffer of standard size
(`item_alloc2(settings.item_buf_size)`, returning NULL on failure), then run
the retry loop.  Returns the event trace and the id of the returned buffer
(`none` models a NULL return to the caller). -/
def item_get (item_buf_size : Nat) (allocOk : Nat → Bool)
    (responses : List DbGetResult) : Option (List GetEvent × Option Nat) :=
  if allocOk 0 then
    match item_get_loop allocOk 0 1 1 responses with
    | none => none
    | some (evs, res) => some (GetEvent.alloc 0 item_buf_size :: evs, res)
  else
    some ([], none)

/-- Embeds `item_put`: writes `dbdata.size = ITEM_ntotal(it)` bytes and maps
the store result to 0 (success) or -1 (SERVER_ERROR).  The first component
is the written size, the second the return value. -/
def item_put (hdrSize : Nat) (it : Item) (storeOk : Bool) : Int × Int :=
  (ITEM_ntotal hdrSize it, if storeOk then 0 else -1)

/-- Result of a `dbp->del` call. -/
inductive DbDelResult where
  | ok
  | notFound
  | dbError (code : Int)
deriving DecidableEq, Repr

/-- Embeds `item_delete`: 0 for success, 1 for NOT_FOUND, -1 for
SERVER_ERROR. -/
def item_delete (r : DbDelResult) : Int :=
  match r with
  | DbDelResult.ok => 0
  | DbDelResult.notFound => 1
  | DbDelResult.dbError _ => -1

/-- Result of a `dbp->exists` call. -/
inductive DbExistsResult where
  | ok
  | notFound
  | dbError (code : Int)
deriving DecidableEq, Repr

/-- Embeds `item_exists`: 1 exactly when the store call returned 0, and 0
for every other result. -/
def item_exists (r : DbExistsResult) : Int :=
  match r with
  | DbExistsResult.ok => 1
  | _ => 0

/-! ## Helper lemmas -/

theorem do_item_add_to_freelist_success {α : Type} (p : Pool α) (ok : Bool) (it : α)
    (h : (do_item_add_to_freelist p ok it).2 = 0) :
    (do_item_add_to_freelist p ok it).1.stack = it :: p.stack ∧
    (do_item_add_to_freelist p ok it).1.total = p.total ∨
    (do_item_add_to_freelist p ok it).1.stack = it :: p.stack ∧
    (do_item_add_to_freelist p ok it).1.total = p.total * 2 := by
  unfold do_item_add_to_freelist at h ⊢
  split_ifs at h ⊢ <;> simp_all

theorem do_item_add_to_freelist_fail {α : Type} (p : Pool α) (ok : Bool) (it : α)
    (h : (do_item_add_to_freelist p ok it).2 ≠ 0) :
    (do_item_add_to_freelist p ok it).1 = p := by
  unfold do_item_add_to_freelist at h ⊢
  split_ifs at h ⊢ <;> simp_all

theorem PoolCapInv_total_le {α : Type} {p : Pool α} (h : PoolCapInv p) :
    p.total ≤ MAX_ITEM_FREELIST_LENGTH := by
  obtain ⟨k, hk, ht⟩ := h
  have h2 : (2 : ℕ) ^ k ≤ 8 := by
    calc (2 : ℕ) ^ k ≤ 2 ^ 3 := Nat.pow_le_pow_right (by norm_num) hk
      _ = 8 := by norm_num
  rw [ht]
  unfold INIT_ITEM_FREELIST_LENGTH MAX_ITEM_FREELIST_LENGTH
  omega

theorem PoolCapInv_double {α : Type} {p : Pool α} (h : PoolCapInv p)
    (hlt : p.total < MAX_ITEM_FREELIST_LENGTH) (s : List α) :
    PoolCapInv (⟨s, p.total * 2⟩ : Pool α) := by
  obtain ⟨k, hk, ht⟩ := h
  have hk2 : k ≤ 2 := by
    by_contra hgt
    have hk3 : k = 3 := by omega
    rw [ht, hk3] at hlt
    norm_num [INIT_ITEM_FREELIST_LENGTH, MAX_ITEM_FREELIST_LENGTH] at hlt
  exact ⟨k + 1, by omega, by show p.total * 2 = _; rw [ht]; ring⟩

theorem digitsAuxR_eq_digits (fuel : Nat) :
    ∀ n, n ≤ fuel → digitsAuxR fuel n = Nat.digits 10 n := by
  induction fuel with
  | zero =>
    intro n hn
    interval_cases n
    simp [digitsAuxR]
  | succ fuel ih =>
    intro n hn
    cases n with
    | zero => simp [digitsAuxR]
    | succ m =>
      rw [digitsAuxR, Nat.digits_def' (by norm_num : (1:ℕ) < 10) (Nat.succ_pos m)]
      have hdiv : (m + 1) / 10 ≤ fuel := by
        have h1 : (m + 1) / 10 ≤ m :=
          Nat.le_of_lt_succ (Nat.div_lt_self (Nat.succ_pos m) (by norm_num))
        omega
      rw [ih ((m + 1) / 10) hdiv]

theorem digits10_eq (n : Nat) : digits10 n = Nat.digits 10 n :=
  digitsAuxR_eq_digits n n (le_refl n)

theorem digitChars_length (n : Nat) : (digitChars n).length = (Nat.digits 10 n).length := by
  simp [digitChars, digits10_eq]

theorem digits10_length_le (n k : Nat) (h : n < 10 ^ k) : (Nat.digits 10 n).length ≤ k := by
  rcases eq_or_ne n 0 with rfl | hn
  · simp
  · have h1 := Nat.base_pow_length_digits_le 10 n (by norm_num) hn
    have h2 : (10 : ℕ) ^ (Nat.digits 10 n).length < 10 ^ (k + 1) := by
      calc (10 : ℕ) ^ (Nat.digits 10 n).length ≤ 10 * n := h1
        _ < 10 * 10 ^ k := by omega
        _ = 10 ^ (k + 1) := by ring
    have h3 := (Nat.pow_lt_pow_iff_right (by norm_num : 1 < 10)).mp h2
    omega

theorem decChars_length_le (i : Int) (h : i.natAbs < 10 ^ 10) : (decChars i).length ≤ 11 := by
  unfold decChars
  split_ifs with h1 h2
  · have := digits10_length_le i.natAbs 10 h
    simp [digitChars_length]
    omega
  · simp
  · have h3 : i.toNat = i.natAbs := by omega
    rw [digitChars_length, h3]
    exact le_trans (digits10_length_le _ 10 h) (by norm_num)

theorem fmtSuffix_length_lt (flags nbytes : Int) (hf : flags.natAbs < 10 ^ 10)
    (hb : (nbytes - 2).natAbs < 10 ^ 10) : (fmtSuffix flags nbytes).length < 40 := by
  have h1 := decChars_length_le flags hf
  have h2 := decChars_length_le (nbytes - 2) hb
  simp [fmtSuffix]
  omega

theorem item_get_loop_accounting (allocOk : Nat → Bool) (responses : List DbGetResult) :
    ∀ (held attempt : Nat) (evs : List GetEvent) (res : Option Nat),
      item_get_loop allocOk held (held + 1) attempt responses = some (evs, res) →
      (allocsOf evs).map Prod.fst = List.range' (held + 1) (allocsOf evs).length ∧
      freesOf evs = List.range' held (freesOf evs).length ∧
      liveOkFrom 1 evs = true ∧
      (res = some (held + (allocsOf evs).length) ∧
          (freesOf evs).length = (allocsOf evs).length ∨
        res = none ∧ (freesOf evs).length = (allocsOf evs).length + 1) := by
  induction responses with
  | nil =>
    intro held attempt evs res h
    simp [item_get_loop] at h
  | cons r rest ih =>
    intro held attempt evs res h
    cases r with
    | success =>
      rw [item_get_loop] at h
      simp at h
      obtain ⟨rfl, rfl⟩ := h
      refine ⟨rfl, rfl, rfl, Or.inl ⟨rfl, rfl⟩⟩
    | notFound =>
      rw [item_get_loop] at h
      simp at h
      obtain ⟨rfl, rfl⟩ := h
      exact ⟨rfl, rfl, rfl, Or.inr ⟨rfl, rfl⟩⟩
    | dbError c =>
      rw [item_get_loop] at h
      simp at h
      obtain ⟨rfl, rfl⟩ := h
      exact ⟨rfl, rfl, rfl, Or.inr ⟨rfl, rfl⟩⟩
    | bufferSmall sz =>
      rw [item_get_loop] at h
      by_cases ha : allocOk attempt
      · rw [if_pos ha] at h
        cases hrec : item_get_loop allocOk (held + 1) (held + 1 + 1) (attempt + 1) rest with
        | none => rw [hrec] at h; simp at h
        | some pr =>
          obtain ⟨evs', res'⟩ := pr
          rw [hrec] at h
          simp at h
          obtain ⟨rfl, rfl⟩ := h
          obtain ⟨H1, H2, H3, H4⟩ := ih (held + 1) (attempt + 1) evs' res' hrec
          refine ⟨?_, ?_, ?_, ?_⟩
          · simp only [allocsOf, List.filterMap_cons]
            simp only [allocsOf] at H1
            simp [List.range'_succ, H1]
          · simp only [freesOf, List.filterMap_cons] at H2 ⊢
            simp only [List.length_cons, List.range'_succ]
            exact congrArg (List.cons held) H2
          · simpa [liveOkFrom] using H3
          · simp only [allocsOf, freesOf, List.filterMap_cons]
            simp only [allocsOf, freesOf] at H4
            rcases H4 with ⟨hres, hlen⟩ | ⟨hres, hlen⟩
            · refine Or.inl ⟨?_, by simp [hlen]⟩
              rw [hres]
              simp
              omega
            · exact Or.inr ⟨hres, by simp [hlen]⟩
      · rw [if_neg ha] at h
        simp at h
        obtain ⟨rfl, rfl⟩ := h
        exact ⟨rfl, rfl, rfl, Or.inr ⟨rfl, rfl⟩⟩

/-! ## Claim theorems -/

/-- C5: `do_item_from_freelist` removes and returns the most recently
released entry when the pool is non-empty (LIFO discipline, leaving the rest
of the pool and its capacity unchanged); when the pool is empty it returns a
fresh zero-initialized buffer of standard size with no pool side effect, and
on malloc failure it returns null with the pool unchanged. -/
theorem do_item_from_freelist_spec (p : Pool Buf) (mallocOk : Bool) (item_buf_size : Nat) :
    (∀ b rest, p.stack = b :: rest →
      do_item_from_freelist_buf p mallocOk item_buf_size = (some b, ⟨rest, p.total⟩)) ∧
    (∀ ok2 b, (do_item_add_to_freelist p ok2 b).2 = 0 →
      (do_item_from_freelist_buf (do_item_add_to_freelist p ok2 b).1 mallocOk
          item_buf_size).1 = some b ∧
      ((do_item_from_freelist_buf (do_item_add_to_freelist p ok2 b).1 mallocOk
          item_buf_size).2).stack = p.stack) ∧
    (p.stack = [] → mallocOk = true →
      do_item_from_freelist_buf p mallocOk item_buf_size =
        (some (zeroBuf item_buf_size), p)) ∧
    (p.stack = [] → mallocOk = false →
      do_item_from_freelist_buf p mallocOk item_buf_size = (none, p)) := by
  refine ⟨fun b rest h => ?_, fun ok2 b h => ?_, fun h hm => ?_, fun h hm => ?_⟩
  · simp [do_item_from_freelist_buf, do_item_from_freelist, h]
  · rcases do_item_add_to_freelist_success p ok2 b h with ⟨hs, _⟩ | ⟨hs, _⟩ <;>
      simp [do_item_from_freelist_buf, do_item_from_freelist, hs]
  · simp [do_item_from_freelist_buf, do_item_from_freelist, h, hm]
  · simp [do_item_from_freelist_buf, do_item_from_freelist, h, hm]

/-- C5 witness: a two-entry pool pops the most recently pushed buffer; an
empty pool hands out a fresh zero buffer or fails with no side effect. -/
theorem do_item_from_freelist_spec_witness :
    do_item_from_freelist_buf ⟨[[1], [2]], 500⟩ true 8 = (some [1], ⟨[[2]], 500⟩) ∧
    do_item_from_freelist_buf ⟨[], 500⟩ true 8 = (some (zeroBuf 8), ⟨[], 500⟩) ∧
    do_item_from_freelist_buf ⟨[], 500⟩ false 8 = (none, ⟨[], 500⟩) :=
  ⟨(do_item_from_freelist_spec ⟨[[1], [2]], 500⟩ true 8).1 [1] [[2]] rfl,
   (do_item_from_freelist_spec ⟨[], 500⟩ true 8).2.2.1 rfl rfl,
   (do_item_from_freelist_spec ⟨[], 500⟩ false 8).2.2.2 rfl rfl⟩

/-- C6: `do_item_add_to_freelist` appends when there is room; at capacity it
either fails (hard maximum reached, or the growth realloc fails) leaving the
pool unchanged, or doubles the capacity exactly once and appends; capacities
reachable from `item_init` (500 doubled at most thrice) never exceed the
hard maximum 4000. -/
theorem do_item_add_to_freelist_spec {α : Type} (p : Pool α) (reallocOk : Bool) (it : α) :
    (p.stack.length < p.total →
      do_item_add_to_freelist p reallocOk it = (⟨it :: p.stack, p.total⟩, 0)) ∧
    (p.total ≤ p.stack.length → MAX_ITEM_FREELIST_LENGTH ≤ p.total →
      do_item_add_to_freelist p reallocOk it = (p, 1)) ∧
    (p.total ≤ p.stack.length → p.total < MAX_ITEM_FREELIST_LENGTH → reallocOk = true →
      do_item_add_to_freelist p reallocOk it = (⟨it :: p.stack, p.total * 2⟩, 0)) ∧
    (p.total ≤ p.stack.length → p.total < MAX_ITEM_FREELIST_LENGTH → reallocOk = false →
      do_item_add_to_freelist p reallocOk it = (p, 1)) ∧
    (PoolCapInv p → PoolCapInv (do_item_add_to_freelist p reallocOk it).1 ∧
      (do_item_add_to_freelist p reallocOk it).1.total ≤ MAX_ITEM_FREELIST_LENGTH) ∧
    PoolCapInv (item_init α) := by
  refine ⟨fun h1 => ?_, fun h1 h2 => ?_, fun h1 h2 h3 => ?_, fun h1 h2 h3 => ?_,
    fun hinv => ⟨?_, ?_⟩, ⟨0, by norm_num, by simp [item_init]⟩⟩
  · simp [do_item_add_to_freelist, h1]
  · simp [do_item_add_to_freelist, Nat.not_lt.mpr h1, h2]
  · simp [do_item_add_to_freelist, Nat.not_lt.mpr h1, Nat.not_le.mpr h2, h3]
  · simp [do_item_add_to_freelist, Nat.not_lt.mpr h1, Nat.not_le.mpr h2, h3]
  · unfold do_item_add_to_freelist
    split_ifs with ha hb hc
    · obtain ⟨k, hk, ht⟩ := hinv
      exact ⟨k, hk, ht⟩
    · exact hinv
    · exact PoolCapInv_double hinv (by omega) _
    · exact hinv
  · unfold do_item_add_to_freelist
    split_ifs with ha hb hc
    · exact PoolCapInv_total_le hinv
    · exact PoolCapInv_total_le hinv
    · exact PoolCapInv_total_le (PoolCapInv_double hinv (by omega) [])
    · exact PoolCapInv_total_le hinv

/-- C6 witness: a pool with room appends; a full pool of capacity 500 doubles
to 1000 on a successful realloc, fails unchanged when realloc fails, and a
full pool at the hard maximum 4000 fails unchanged. -/
theorem do_item_add_to_freelist_spec_witness :
    @do_item_add_to_freelist Nat ⟨[], 500⟩ true 7 = (⟨[7], 500⟩, 0) ∧
    @do_item_add_to_freelist Nat ⟨List.replicate 500 0, 500⟩ true 7 =
      (⟨7 :: List.replicate 500 0, 1000⟩, 0) ∧
    @do_item_add_to_freelist Nat ⟨List.replicate 500 0, 500⟩ false 7 =
      (⟨List.replicate 500 0, 500⟩, 1) ∧
    @do_item_add_to_freelist Nat ⟨List.replicate 4000 0, 4000⟩ true 7 =
      (⟨List.replicate 4000 0, 4000⟩, 1) ∧
    PoolCapInv (@item_init Nat) := by
  refine ⟨(do_item_add_to_freelist_spec ⟨[], 500⟩ true 7).1 (by norm_num), ?_, ?_, ?_,
    (do_item_add_to_freelist_spec (⟨[], 500⟩ : Pool Nat) true 7).2.2.2.2.2⟩
  · exact ((do_item_add_to_freelist_spec ⟨List.replicate 500 0, 500⟩ true 7).2.2.1
      (by simp only [List.length_replicate]; exact le_refl _)
      (by norm_num [MAX_ITEM_FREELIST_LENGTH]) rfl).trans rfl
  · exact (do_item_add_to_freelist_spec ⟨List.replicate 500 0, 500⟩ false 7).2.2.2.1
      (by simp only [List.length_replicate]; exact le_refl _)
      (by norm_num [MAX_ITEM_FREELIST_LENGTH]) rfl
  · exact (do_item_add_to_freelist_spec ⟨List.replicate 4000 0, 4000⟩ true 7).2.1
      (by simp only [List.length_replicate]; exact le_refl _)
      (by norm_num [MAX_ITEM_FREELIST_LENGTH])

/-- C7: `item_free` recomputes the record's total size from its header
fields; a null record is a no-op returning 0; an oversized record is freed
directly leaving the pool untouched; a poolable record is pooled when the
freelist accepts it and freed directly (pool unchanged) when it refuses; the
return value is 0 in every case. -/
theorem item_free_spec (hdrSize item_buf_size : Nat) (p : Pool Item) (reallocOk : Bool)
    (it : Option Item) :
    (item_free hdrSize item_buf_size p reallocOk it).2.1 = 0 ∧
    item_free hdrSize item_buf_size p reallocOk none = (p, 0, FreeOutcome.noop) ∧
    (∀ i, it = some i → (item_buf_size : Int) < ITEM_ntotal hdrSize i →
      item_free hdrSize item_buf_size p reallocOk it = (p, 0, FreeOutcome.freedDirect)) ∧
    (∀ i, it = some i → ITEM_ntotal hdrSize i ≤ (item_buf_size : Int) →
      ((do_item_add_to_freelist p reallocOk i).2 = 0 →
        item_free hdrSize item_buf_size p reallocOk it =
          ((do_item_add_to_freelist p reallocOk i).1, 0, FreeOutcome.pooled) ∧
        ((item_free hdrSize item_buf_size p reallocOk it).1).stack = i :: p.stack) ∧
      ((do_item_add_to_freelist p reallocOk i).2 ≠ 0 →
        item_free hdrSize item_buf_size p reallocOk it = (p, 0, FreeOutcome.freedDirect))) := by
  refine ⟨?_, rfl, fun i hi hlt => ?_, fun i hi hle => ⟨fun h0 => ⟨?_, ?_⟩, fun h1 => ?_⟩⟩
  · cases it with
    | none => rfl
    | some i =>
      by_cases h : (item_buf_size : Int) < ITEM_ntotal hdrSize i
      · simp [item_free, h]
      · by_cases h2 : (do_item_add_to_freelist p reallocOk i).2 = 0 <;>
          simp [item_free, h, h2]
  · subst hi
    simp [item_free, hlt]
  · subst hi
    simp [item_free, Int.not_lt.mpr hle, h0]
  · subst hi
    have hstep : item_free hdrSize item_buf_size p reallocOk (some i) =
        ((do_item_add_to_freelist p reallocOk i).1, 0, FreeOutcome.pooled) := by
      simp [item_free, Int.not_lt.mpr hle, h0]
    rw [hstep]
    rcases do_item_add_to_freelist_success p reallocOk i h0 with ⟨hs, _⟩ | ⟨hs, _⟩ <;>
      simpa using hs
  · subst hi
    simp [item_free, Int.not_lt.mpr hle, h1, do_item_add_to_freelist_fail p reallocOk i h1]

/-- C7 witness: freeing NULL is a no-op; a 45-byte record is pooled when the
standard size is 512 and freed directly when the standard size is 8; the
return value is 0 throughout. -/
theorem item_free_spec_witness :
    item_free 32 512 ⟨[], 500⟩ true none = (⟨[], 500⟩, 0, FreeOutcome.noop) ∧
    item_free 32 512 ⟨[], 500⟩ true
        (some ⟨1, 5, 6, ['k'], [' ', '0', ' ', '3', '\r', '\n']⟩) =
      (⟨[⟨1, 5, 6, ['k'], [' ', '0', ' ', '3', '\r', '\n']⟩], 500⟩, 0, FreeOutcome.pooled) ∧
    item_free 32 8 ⟨[], 500⟩ true
        (some ⟨1, 5, 6, ['k'], [' ', '0', ' ', '3', '\r', '\n']⟩) =
      (⟨[], 500⟩, 0, FreeOutcome.freedDirect) := by
  refine ⟨(item_free_spec 32 512 ⟨[], 500⟩ true none).2.1, ?_, ?_⟩
  · have := ((item_free_spec 32 512 ⟨[], 500⟩ true
        (some ⟨1, 5, 6, ['k'], [' ', '0', ' ', '3', '\r', '\n']⟩)).2.2.2
      ⟨1, 5, 6, ['k'], [' ', '0', ' ', '3', '\r', '\n']⟩ rfl
      (by norm_num [ITEM_ntotal])).1 (by decide)
    simpa [do_item_add_to_freelist] using this.1
  · exact (item_free_spec 32 8 ⟨[], 500⟩ true
        (some ⟨1, 5, 6, ['k'], [' ', '0', ' ', '3', '\r', '\n']⟩)).2.2.1
      ⟨1, 5, 6, ['k'], [' ', '0', ' ', '3', '\r', '\n']⟩ rfl
      (by norm_num [ITEM_ntotal])

/-- C3: the total size computed by `item_make_header` is
`header_size + key_length + suffix_length + payload_length`, and this one
codec-computed value is what `item_alloc1` uses to size the buffer it
allocates (recorded for the direct-malloc route) and equals `ITEM_ntotal`
of the record it builds, which is exactly the byte count `item_put` writes
to the store — so the allocated size and the written size are equal. -/
theorem codec_single_source_of_truth (hdrSize item_buf_size : Nat) (key : List Char)
    (nkey : Nat) (flags nbytes : Int) (p : Pool Buf) (mallocOk storeOk : Bool)
    (hk : nkey + 1 ≤ 255) :
    (∀ klen : Nat, (item_make_header hdrSize klen flags nbytes).2.2 =
      (hdrSize : Int) + klen + (item_make_header hdrSize klen flags nbytes).2.1 + nbytes) ∧
    (∀ it src p', item_alloc1 hdrSize item_buf_size key nkey flags nbytes p mallocOk =
        (some (it, src), p') →
      ITEM_ntotal hdrSize it =
        (item_make_header hdrSize ((nkey + 1) % 256) flags nbytes).2.2 ∧
      (item_put hdrSize it storeOk).1 =
        (item_make_header hdrSize ((nkey + 1) % 256) flags nbytes).2.2 ∧
      (∀ s, src = AllocSource.direct s →
        s = (item_make_header hdrSize ((nkey + 1) % 256) flags nbytes).2.2)) := by
  have e1 : nkey % 256 = nkey := Nat.mod_eq_of_lt (by omega)
  have e2 : (nkey + 1) % 256 = nkey + 1 := Nat.mod_eq_of_lt (by omega)
  refine ⟨fun klen => rfl, fun it src p' hEq => ?_⟩
  have hfields : it.nkey = nkey % 256 ∧
      it.nbytes = nbytes ∧
      it.nsuffix = (item_make_header hdrSize ((nkey + 1) % 256) flags nbytes).2.1 ∧
      (src = AllocSource.direct
        (item_make_header hdrSize ((nkey + 1) % 256) flags nbytes).2.2 ∨
        src = AllocSource.freelist) := by
    simp only [item_alloc1] at hEq
    by_cases hlt : (item_buf_size : Int) <
        (item_make_header hdrSize ((nkey + 1) % 256) flags nbytes).2.2
    · rw [if_pos hlt] at hEq
      cases mallocOk with
      | false => simp at hEq
      | true =>
        simp at hEq
        obtain ⟨⟨rfl, rfl⟩, rfl⟩ := hEq
        exact ⟨rfl, rfl, rfl, Or.inl rfl⟩
    · rw [if_neg hlt] at hEq
      cases hfl : do_item_from_freelist_buf p mallocOk item_buf_size with
      | mk ob p2 =>
        rw [hfl] at hEq
        cases ob with
        | none => simp at hEq
        | some b =>
          simp at hEq
          obtain ⟨⟨rfl, rfl⟩, rfl⟩ := hEq
          exact ⟨rfl, rfl, rfl, Or.inr rfl⟩
  obtain ⟨hk1, hb1, hs1, hsrc⟩ := hfields
  have htot : ITEM_ntotal hdrSize it =
      (item_make_header hdrSize ((nkey + 1) % 256) flags nbytes).2.2 := by
    rw [ITEM_ntotal, hk1, hb1, hs1, e1, e2]
    show _ = (item_make_header hdrSize (nkey + 1) flags nbytes).2.2
    rw [item_make_header]
    push_cast
    ring
  refine ⟨htot, htot, fun s hs => ?_⟩
  rcases hsrc with rfl | rfl
  · exact (AllocSource.direct.inj hs.symm)
  · exact absurd hs (by simp)

/-- C3 witness: with a 32-byte header, key `"k"` (length 1), flags 0 and a
7-byte payload, the codec total is 32 + 2 + 6 + 7 = 47, and the record
built by `item_alloc1` has `ITEM_ntotal` 47, which is also the written size
of `item_put`. -/
theorem codec_single_source_of_truth_witness :
    (item_make_header 32 2 0 7).2.2 =
      (32 : Int) + (2 : Nat) + (item_make_header 32 2 0 7).2.1 + 7 ∧
    ITEM_ntotal 32 ⟨1, 7, 6, ['k'], [' ', '0', ' ', '5', '\r', '\n']⟩ =
      (item_make_header 32 2 0 7).2.2 ∧
    (item_put 32 ⟨1, 7, 6, ['k'], [' ', '0', ' ', '5', '\r', '\n']⟩ true).1 =
      (item_make_header 32 2 0 7).2.2 := by
  have H := codec_single_source_of_truth 32 512 ['k'] 1 0 7 ⟨[], 500⟩ true true
    (by norm_num)
  have H2 := H.2 ⟨1, 7, 6, ['k'], [' ', '0', ' ', '5', '\r', '\n']⟩
    AllocSource.freelist ⟨[], 500⟩ (by rfl)
  exact ⟨H.1 2, H2.1, H2.2.1⟩

/-- C4: for every `int`-ranged `flags` and `payload_length`, the suffix
stored by `item_make_header` is the full formatted string
`" <flags> <payload_length-2>\r\n"` (its length is below the 40-byte cap,
so `snprintf` never truncates it — any longer string would be cut to 39
characters by the modelled truncation semantics), and the returned
`nsuffix` equals the length of the stored suffix. -/
theorem item_make_header_suffix_spec (hdrSize nkey : Nat) (flags nbytes : Int)
    (hf : flags.natAbs < 10 ^ 10) (hb : (nbytes - 2).natAbs < 10 ^ 10) :
    (item_make_header hdrSize nkey flags nbytes).1 = fmtSuffix flags nbytes ∧
    (fmtSuffix flags nbytes).length < 40 ∧
    (item_make_header hdrSize nkey flags nbytes).2.1 =
      (item_make_header hdrSize nkey flags nbytes).1.length ∧
    (∀ s : List Char, 40 ≤ s.length → snprintf_trunc 40 s = s.take 39) := by
  have hlt := fmtSuffix_length_lt flags nbytes hf hb
  refine ⟨?_, hlt, ?_, fun s hs => ?_⟩
  · simp [item_make_header, snprintf_trunc, hlt]
  · have h256 : (fmtSuffix flags nbytes).length < 256 := lt_trans hlt (by norm_num)
    simp [item_make_header, snprintf_trunc, hlt, Nat.mod_eq_of_lt h256]
  · simp [snprintf_trunc, Nat.not_lt.mpr hs]

/-- C4 witness: flags 0 and payload length 5 give the 6-character stored
suffix `" 0 3\r\n"` with `nsuffix` 6. -/
theorem item_make_header_suffix_spec_witness :
    (item_make_header 32 2 0 5).1 = fmtSuffix 0 5 ∧
    (fmtSuffix 0 5).length < 40 ∧
    (item_make_header 32 2 0 5).2.1 = (item_make_header 32 2 0 5).1.length ∧
    (∀ s : List Char, 40 ≤ s.length → snprintf_trunc 40 s = s.take 39) :=
  item_make_header_suffix_spec 32 2 0 5 (by norm_num) (by norm_num)

/-- C1: against a store that reports BufferTooSmall with declared exact size
`n` on the first read and Success on the second, `item_get` performs exactly
one extra allocation, sized exactly `n`; the first buffer (id 0) is freed
exactly once, and before the retry allocation (visible in the event order);
the returned record is the buffer allocated with size `n`; the trace holds
two allocations in total, i.e. exactly one resize. -/
theorem item_get_retry_once (item_buf_size n : Nat) :
    item_get item_buf_size (fun _ => true)
        [DbGetResult.bufferSmall n, DbGetResult.success] =
      some ([GetEvent.alloc 0 item_buf_size, GetEvent.storeGet (DbGetResult.bufferSmall n),
             GetEvent.free 0, GetEvent.alloc 1 n, GetEvent.storeGet DbGetResult.success],
            some 1) ∧
    allocsOf [GetEvent.alloc 0 item_buf_size, GetEvent.storeGet (DbGetResult.bufferSmall n),
              GetEvent.free 0, GetEvent.alloc 1 n, GetEvent.storeGet DbGetResult.success] =
      [(0, item_buf_size), (1, n)] ∧
    freesOf [GetEvent.alloc 0 item_buf_size, GetEvent.storeGet (DbGetResult.bufferSmall n),
             GetEvent.free 0, GetEvent.alloc 1 n, GetEvent.storeGet DbGetResult.success] =
      [0] :=
  ⟨rfl, rfl, rfl⟩

/-- C2: on every terminating execution of `item_get`, every store read is
issued holding exactly one buffer; no buffer is freed twice; the buffers
freed are exactly the allocated ones other than the returned one (no leak,
no double release), and the returned buffer is allocated and never freed. -/
theorem item_get_ownership (item_buf_size : Nat) (allocOk : Nat → Bool)
    (responses : List DbGetResult) (evs : List GetEvent) (res : Option Nat)
    (h : item_get item_buf_size allocOk responses = some (evs, res)) :
    liveOkFrom 0 evs = true ∧
    (freesOf evs).Nodup ∧
    (∀ i, i ∈ freesOf evs ↔ i ∈ (allocsOf evs).map Prod.fst ∧ res ≠ some i) ∧
    (∀ i, res = some i → i ∈ (allocsOf evs).map Prod.fst ∧ i ∉ freesOf evs) := by
  unfold item_get at h
  by_cases h0 : allocOk 0
  · rw [if_pos h0] at h
    cases hrec : item_get_loop allocOk 0 1 1 responses with
    | none => rw [hrec] at h; simp at h
    | some pr =>
      obtain ⟨evs', res'⟩ := pr
      rw [hrec] at h
      simp at h
      obtain ⟨rfl, rfl⟩ := h
      obtain ⟨H1, H2, H3, H4⟩ := item_get_loop_accounting allocOk responses 0 1 evs' res' hrec
      have hAl : (allocsOf (GetEvent.alloc 0 item_buf_size :: evs')).map Prod.fst =
          0 :: (allocsOf evs').map Prod.fst := by
        simp [allocsOf]
      have hFr : freesOf (GetEvent.alloc 0 item_buf_size :: evs') = freesOf evs' := by
        simp [freesOf]
      have hmemA : ∀ i, i ∈ (allocsOf (GetEvent.alloc 0 item_buf_size :: evs')).map Prod.fst ↔
          i < (allocsOf evs').length + 1 := by
        intro i
        rw [hAl, H1]
        simp [List.mem_range'_1]
        omega
      have hmemF : ∀ i, i ∈ freesOf (GetEvent.alloc 0 item_buf_size :: evs') ↔
          i < (freesOf evs').length := by
        intro i
        rw [hFr, H2]
        simp [List.mem_range'_1]
      refine ⟨by simpa [liveOkFrom] using H3, ?_, ?_, ?_⟩
      · rw [hFr, H2]
        exact List.nodup_range' 0 (freesOf evs').length 1
      · intro i
        rw [hmemF i, hmemA i]
        rcases H4 with ⟨hres, hlen⟩ | ⟨hres, hlen⟩
        · rw [hres]
          simp only [Nat.zero_add, ne_eq, Option.some.injEq]
          omega
        · rw [hres]
          simp only [ne_eq]
          constructor
          · intro hi
            exact ⟨by omega, by simp⟩
          · rintro ⟨hi, -⟩
            omega
      · intro i hi
        rcases H4 with ⟨hres, hlen⟩ | ⟨hres, hlen⟩
        · rw [hres] at hi
          have hieq : i = (allocsOf evs').length := by
            simpa using hi.symm
          refine ⟨(hmemA i).mpr (by omega), fun hmem => ?_⟩
          have := (hmemF i).mp hmem
          omega
        · rw [hres] at hi
          exact absurd hi (by simp)
  · rw [if_neg h0] at h
    simp at h
    obtain ⟨rfl, rfl⟩ := h
    refine ⟨rfl, List.nodup_nil, fun i => by simp [freesOf, allocsOf], fun i hi => by simp at hi⟩

/-- C2 witness: the accounting invariant evaluated on the concrete
retry-then-succeed execution. -/
theorem item_get_ownership_witness :
    liveOkFrom 0 [GetEvent.alloc 0 64, GetEvent.storeGet (DbGetResult.bufferSmall 100),
      GetEvent.free 0, GetEvent.alloc 1 100, GetEvent.storeGet DbGetResult.success] = true ∧
    (freesOf [GetEvent.alloc 0 64, GetEvent.storeGet (DbGetResult.bufferSmall 100),
      GetEvent.free 0, GetEvent.alloc 1 100, GetEvent.storeGet DbGetResult.success]).Nodup ∧
    (∀ i, i ∈ freesOf [GetEvent.alloc 0 64, GetEvent.storeGet (DbGetResult.bufferSmall 100),
        GetEvent.free 0, GetEvent.alloc 1 100, GetEvent.storeGet DbGetResult.success] ↔
      i ∈ (allocsOf [GetEvent.alloc 0 64, GetEvent.storeGet (DbGetResult.bufferSmall 100),
        GetEvent.free 0, GetEvent.alloc 1 100,
        GetEvent.storeGet DbGetResult.success]).map Prod.fst ∧ (some 1 : Option Nat) ≠ some i) ∧
    (∀ i, (some 1 : Option Nat) = some i →
      i ∈ (allocsOf [GetEvent.alloc 0 64, GetEvent.storeGet (DbGetResult.bufferSmall 100),
        GetEvent.free 0, GetEvent.alloc 1 100,
        GetEvent.storeGet DbGetResult.success]).map Prod.fst ∧
      i ∉ freesOf [GetEvent.alloc 0 64, GetEvent.storeGet (DbGetResult.bufferSmall 100),
        GetEvent.free 0, GetEvent.alloc 1 100, GetEvent.storeGet DbGetResult.success]) :=
  item_get_ownership 64 (fun _ => true)
    [DbGetResult.bufferSmall 100, DbGetResult.success]
    [GetEvent.alloc 0 64, GetEvent.storeGet (DbGetResult.bufferSmall 100),
     GetEvent.free 0, GetEvent.alloc 1 100, GetEvent.storeGet DbGetResult.success]
    (some 1) rfl

/-- C9 counterexample: a store-reported NotFound and a generic store error
produce byte-for-byte the same outcome for the caller of `item_get` — the
event traces differ only in the logged store result, and the surfaced return
value (the second component, the returned item pointer) is NULL (`none`) in
both runs, so the caller cannot distinguish them. -/
theorem item_get_notfound_error_same_result :
    (item_get 64 (fun _ => true) [DbGetResult.notFound]).map (fun r => r.2) =
      (item_get 64 (fun _ => true) [DbGetResult.dbError (-30973)]).map (fun r => r.2) ∧
    (item_get 64 (fun _ => true) [DbGetResult.notFound]).map (fun r => r.2) =
      some none :=
  ⟨rfl, rfl⟩

/-- C9 amended: `item_get` translates a store NotFound and any other store
error each into a released buffer and a NULL return; the two conditions are
surfaced to the caller as the same NULL result (errors are reported only via
optional diagnostics), distinguishable from success but not from each
other. -/
theorem item_get_notfound_and_error_null (item_buf_size : Nat) (code : Int)
    (allocOk : Nat → Bool) (h : allocOk 0 = true) :
    item_get item_buf_size allocOk [DbGetResult.notFound] =
      some ([GetEvent.alloc 0 item_buf_size, GetEvent.storeGet DbGetResult.notFound,
             GetEvent.free 0], none) ∧
    item_get item_buf_size allocOk [DbGetResult.dbError code] =
      some ([GetEvent.alloc 0 item_buf_size, GetEvent.storeGet (DbGetResult.dbError code),
             GetEvent.free 0], none) := by
  constructor <;> simp [item_get, item_get_loop, h]

/-- C9 amended witness: both terminal store conditions at a concrete size
and error code. -/
theorem item_get_notfound_and_error_null_witness :
    item_get 64 (fun _ => true) [DbGetResult.notFound] =
      some ([GetEvent.alloc 0 64, GetEvent.storeGet DbGetResult.notFound,
             GetEvent.free 0], none) ∧
    item_get 64 (fun _ => true) [DbGetResult.dbError (-30973)] =
      some ([GetEvent.alloc 0 64, GetEvent.storeGet (DbGetResult.dbError (-30973)),
             GetEvent.free 0], none) :=
  item_get_notfound_and_error_null 64 (-30973) (fun _ => true) rfl

/-- C8: `item_delete` maps a successful store delete to 0, a store NOT_FOUND
to 1 and any other store failure to -1; the three results are mutually
distinct, so deleting an absent key yields NotFound, not Error. -/
theorem item_delete_result_taxonomy :
    item_delete DbDelResult.ok = 0 ∧
    item_delete DbDelResult.notFound = 1 ∧
    (∀ c : Int, item_delete (DbDelResult.dbError c) = -1) ∧
    item_delete DbDelResult.ok ≠ item_delete DbDelResult.notFound ∧
    (∀ c : Int, item_delete DbDelResult.ok ≠ item_delete (DbDelResult.dbError c)) ∧
    (∀ c : Int, item_delete DbDelResult.notFound ≠ item_delete (DbDelResult.dbError c)) :=
  ⟨rfl, rfl, fun _ => rfl, by decide, fun _ => by norm_num [item_delete],
   fun _ => by norm_num [item_delete]⟩

/-- C10: `item_exists` returns 1 exactly when the store's exists call
succeeds and 0 for every other result, so a store error is indistinguishable
from key absence for its caller. -/
theorem item_exists_collapses_errors :
    (∀ r, item_exists r = 1 ↔ r = DbExistsResult.ok) ∧
    item_exists DbExistsResult.notFound = 0 ∧
    (∀ c : Int, item_exists (DbExistsResult.dbError c) = 0 ∧
      item_exists (DbExistsResult.dbError c) = item_exists DbExistsResult.notFound) := by
  refine ⟨fun r => ?_, rfl, fun c => ⟨rfl, rfl⟩⟩
  cases r <;> simp [item_exists]

end Memcachedb
